import Mathlib

/-!
Shallow embedding of the orthographic projector
(src/projectors/src/lib.rs).

The Rust routine rasterizes a colored 3D point cloud into six
orthographic views (a low-side and a high-side view per axis) with
depth-buffer tie-breaking, then optionally removes depth outliers with a
windowed, occupancy-weighted average filter.

Modelling conventions:
* f64 scalars are modelled as ℚ.  The rasterizer performs only
  comparisons and copies of input values, which are exact in f64, so no
  rounding is abstracted away there.  The filter stage performs sums and
  one division; those are modelled exactly over ℚ where f64 would round.
  None of the properties proved below depends on the rounding of those
  sums.  Division by zero is 0 in ℚ while it is NaN in f64; it can occur
  only when the occupancy sum of a window is 0, and in that case the
  removal test is false in both semantics (the center occupancy is 0),
  which is itself one of the verified claims.
* Rust u64 values are modelled as ℕ; the one place where the u64 range
  matters (the saturating f64-to-u64 cast) clamps explicitly.
* The ndarray buffers are modelled as total functions from ℕ indices;
  the source only ever accesses them inside their allocated extent.
* Panics of the source are modelled by returning none from the entry
  point: the input-shape panics of vec_to_2d_with_floor and of the color
  row accesses, and the usize underflow of max_bound_u - w_u in the
  filter loop bound (with checked arithmetic the subtraction itself
  panics; with wrapping arithmetic the first ndarray window slice is out
  of bounds and panics; both happen exactly when filtering exceeds the
  grid side).  The guard on the color row count is conservative: the
  source panics only if a color row past the end is actually read.
* A row of the input (one point or one color) is a Vec<f64> of length 3,
  modelled as a function from Fin 3.
-/

namespace OrthoProj

/-- One row of the input: 3 f64 coordinates or channel values. -/
abbrev Row : Type := Fin 3 → ℚ

/-- Rust: val.floor() as u64.  The floor of a rational, cast to u64 with
the saturating semantics of the as cast: negative values (and anything
below 0 after flooring) give 0, values at or above 2^64 give
2^64 - 1.  The floor of x is x.num.fdiv x.den (floor division, exact for
f64 inputs). -/
def floor_as_u64 (x : ℚ) : ℕ :=
  let f := (x.num.fdiv (x.den : ℤ)).toNat
  if 2 ^ 64 - 1 ≤ f then 2 ^ 64 - 1 else f

/-- Quantize one row: the floor-to-u64 of each of its 3 entries. -/
def quantize_row (r : Row) : Fin 3 → ℕ :=
  fun c => floor_as_u64 (r c)

/-- Rust fn vec_to_2d_with_floor: the input rows with every value
floored and cast to u64 (the Array2 is represented as the list of its
rows). -/
def vec_to_2d_with_floor (vec : List Row) : List (Fin 3 → ℕ) :=
  vec.map quantize_row

/-- Point update of a rank-3 buffer. -/
def upd3 {α : Type} (f : ℕ → ℕ → ℕ → α) (a b c : ℕ) (v : α) :
    ℕ → ℕ → ℕ → α :=
  fun x y z => if x = a ∧ y = b ∧ z = c then v else f x y z

/-- Rust: img.slice_mut(s![v, r, c, ..]).assign(col): overwrite the 3
channels of one pixel of one view with a quantized color row. -/
def write_pixel (img : ℕ → ℕ → ℕ → ℕ → ℕ) (v r c : ℕ) (col : Fin 3 → ℕ) :
    ℕ → ℕ → ℕ → ℕ → ℕ :=
  fun v' r' c' ch =>
    if h : v' = v ∧ r' = r ∧ c' = c ∧ ch < 3 then col ⟨ch, h.2.2.2⟩
    else img v' r' c' ch

/-- Rust: img.slice_mut(s![v, r, c, ..]).fill(255): reset the 3 channels
of one pixel of one view to the background value. -/
def fill_pixel (img : ℕ → ℕ → ℕ → ℕ → ℕ) (v r c : ℕ) :
    ℕ → ℕ → ℕ → ℕ → ℕ :=
  fun v' r' c' ch =>
    if v' = v ∧ r' = r ∧ c' = c ∧ ch < 3 then 255 else img v' r' c' ch

/-- The mutable buffers of the rasterizer.  Indexing follows the source:
img by (view, row, column, channel), ocp_map by (view, row, column), the
two depth buffers by (axis, row, column).  Note the source's naming:
max_depth is initialized to the maximal bound and tracks the per-cell
minimum coordinate (the near surface, feeding the even, low-side views),
while min_depth is initialized to 0 and tracks the maximum (the far
surface, feeding the odd, high-side views). -/
structure RasterState where
  img : ℕ → ℕ → ℕ → ℕ → ℕ
  ocp_map : ℕ → ℕ → ℕ → ℚ
  min_depth : ℕ → ℕ → ℕ → ℚ
  max_depth : ℕ → ℕ → ℕ → ℚ

/-- Rust: let plane = [(1, 2), (0, 2), (0, 1)]: the two in-plane axes
for each projection axis. -/
def plane : Fin 3 → Fin 3 × Fin 3
  | 0 => (1, 2)
  | 1 => (0, 2)
  | 2 => (0, 1)

/-- The j-th iteration of the inner rasterization loop for one point:
the low-side (view 2j) and high-side (view 2j+1) depth-buffer updates of
the source, in order.  pt is the raw point row, col_f its already
quantized color row. -/
def raster_axis (pt : Row) (col_f : Fin 3 → ℕ) (j : Fin 3)
    (s : RasterState) : RasterState :=
  let k1 := floor_as_u64 (pt (plane j).1)
  let k2 := floor_as_u64 (pt (plane j).2)
  let s1 :=
    if pt j ≤ s.max_depth (j : ℕ) k1 k2 then
      { s with
        img := write_pixel s.img (2 * (j : ℕ)) k1 k2 col_f
        ocp_map := upd3 s.ocp_map (2 * (j : ℕ)) k1 k2 1
        max_depth := upd3 s.max_depth (j : ℕ) k1 k2 (pt j) }
    else s
  if pt j ≥ s1.min_depth (j : ℕ) k1 k2 then
    { s1 with
      img := write_pixel s1.img (2 * (j : ℕ) + 1) k1 k2 col_f
      ocp_map := upd3 s1.ocp_map (2 * (j : ℕ) + 1) k1 k2 1
      min_depth := upd3 s1.min_depth (j : ℕ) k1 k2 (pt j) }
  else s1

/-- One iteration of the outer rasterization loop: the once-per-point
bounds check on the three raw coordinates (skip the point for all axes
when any coordinate reaches max_bound_f64), then the three per-axis
updates for j = 0, 1, 2. -/
def raster_point (max_bound_f64 : ℚ) (pt : Row) (col_f : Fin 3 → ℕ)
    (s : RasterState) : RasterState :=
  if pt 0 ≥ max_bound_f64 ∨ pt 1 ≥ max_bound_f64 ∨ pt 2 ≥ max_bound_f64 then s
  else raster_axis pt col_f 2 (raster_axis pt col_f 1 (raster_axis pt col_f 0 s))

/-- The fold step over the (point, color) rows. -/
def raster_step (max_bound_f64 : ℚ) (s : RasterState) (pc : Row × Row) :
    RasterState :=
  raster_point max_bound_f64 pc.1 (quantize_row pc.2) s

/-- The freshly allocated buffers: img uniformly 255, ocp_map uniformly
0, min_depth uniformly 0, max_depth uniformly 2^precision (as f64). -/
def init_state (precision : ℕ) : RasterState :=
  { img := fun _ _ _ _ => 255
    ocp_map := fun _ _ _ => 0
    min_depth := fun _ _ _ => 0
    max_depth := fun _ _ _ => ((2 ^ precision : ℕ) : ℚ) }

/-- The whole rasterization stage: fold the per-point update over the
index-aligned point and color rows. -/
def rasterize (points colors : List Row) (precision : ℕ) : RasterState :=
  (points.zip colors).foldl
    (raster_step ((2 ^ precision : ℕ) : ℚ)) (init_state precision)

/-- The rasterizer state together with the per-view removal counters of
the filter stage (Rust: freqs). -/
structure FilterState where
  st : RasterState
  freqs : ℕ → ℕ

/-- Sum of a (2w+1) × (2w+1) window of a rank-2 slice centered at
(i, j): Rust slices (i-w)..(i+w+1) × (j-w)..(j+w+1) and sums (the loop
only evaluates this with w ≤ i and w ≤ j, where the ℕ subtraction is
exact). -/
def win_sum (f : ℕ → ℕ → ℚ) (i j w : ℕ) : ℚ :=
  ((List.range (2 * w + 1)).map fun a =>
    ((List.range (2 * w + 1)).map fun b => f (i - w + a) (j - w + b)).sum).sum

/-- One iteration of the innermost filter loop (one view k at one cell
(i, j)), with the current value of the mutable bias toggle: select the
depth buffer by the bias test of the source (bias == 1.0 picks
max_depth, the near buffer), form the occupancy-weighted window average
of depth plus the bias times 20 margin, and if the cell is occupied and
its depth is beyond the average in the bias direction, clear its
occupancy, reset its pixel to background and count the removal. -/
def filter_view (w i j : ℕ) (k : ℕ) (bias : ℚ) (fs : FilterState) :
    FilterState :=
  let depth_idx := k / 2
  let curr_depth := if bias = 1 then fs.st.max_depth else fs.st.min_depth
  let curr_depth_filtered_sum :=
    win_sum (fun r c => curr_depth depth_idx r c * fs.st.ocp_map k r c) i j w
  let ocp_sum := win_sum (fun r c => fs.st.ocp_map k r c) i j w
  let weighted_local_average := curr_depth_filtered_sum / ocp_sum + bias * 20
  if fs.st.ocp_map k i j = 1 ∧
      curr_depth depth_idx i j * bias > weighted_local_average * bias then
    { st :=
        { fs.st with
          ocp_map := upd3 fs.st.ocp_map k i j 0
          img := fill_pixel fs.st.img k i j }
      freqs := fun k' => if k' = k then fs.freqs k + 1 else fs.freqs k' }
  else fs

/-- The k = 0..5 loop at one cell, threading the mutable bias that
starts at 1.0 and is multiplied by -1.0 after every view. -/
def filter_cell (w i j : ℕ) (fs : FilterState) : FilterState :=
  ((List.range 6).foldl
    (fun p k => (filter_view w i j k p.2 p.1, p.2 * -1))
    (fs, (1 : ℚ))).1

/-- The filter stage: the interior cells (i, j) with
w ≤ i, j < side - w, traversed row-major (i outer, j inner). -/
def filter_pass (side w : ℕ) (fs : FilterState) : FilterState :=
  (List.range' w (side - w - w)).foldl
    (fun fs1 i =>
      (List.range' w (side - w - w)).foldl (fun fs2 j => filter_cell w i j fs2) fs1)
    fs

/-- The returned buffers, plus the diagnostic the filter branch prints
(the six removal counters); none when filtering is disabled and nothing
is printed. -/
structure Output where
  img : ℕ → ℕ → ℕ → ℕ → ℕ
  ocp_map : ℕ → ℕ → ℕ → ℚ
  diag : Option (ℕ → ℕ)

/-- Rust fn orthographic_projection.  none models a panic: empty points
or colors (vec_to_2d_with_floor indexes row 0), fewer color rows than
point rows (conservative: the source panics when such a row is read),
and, when filtering is nonzero, a filter window half-width exceeding the
grid side (the usize loop bound max_bound_u - w_u underflows). -/
def orthographic_projection (points colors : List Row)
    (precision filtering : ℕ) : Option Output :=
  let max_bound : ℕ := 2 ^ precision
  if points = [] ∨ colors = [] then none
  else if colors.length < points.length then none
  else
    let s := rasterize points colors precision
    if filtering = 0 then some ⟨s.img, s.ocp_map, none⟩
    else if max_bound < filtering then none
    else
      let fs := filter_pass max_bound filtering ⟨s, fun _ => 0⟩
      some ⟨fs.st.img, fs.st.ocp_map, some fs.freqs⟩

/-- One iteration of the innermost filter loop as the spec words it:
the sign is derived from the parity of the view index k (+1 for the
even, low-side views, -1 for the odd, high-side views), the even views
are filtered against the near buffer (the source's max_depth) and the
odd views against the far buffer (the source's min_depth), and the
20-unit margin is added with that sign. -/
def filter_view_by_parity (w i j : ℕ) (k : ℕ) (fs : FilterState) :
    FilterState :=
  let depth_idx := k / 2
  let sign : ℚ := if k % 2 = 0 then 1 else -1
  let curr_depth := if k % 2 = 0 then fs.st.max_depth else fs.st.min_depth
  let curr_depth_filtered_sum :=
    win_sum (fun r c => curr_depth depth_idx r c * fs.st.ocp_map k r c) i j w
  let ocp_sum := win_sum (fun r c => fs.st.ocp_map k r c) i j w
  let weighted_local_average := curr_depth_filtered_sum / ocp_sum + sign * 20
  if fs.st.ocp_map k i j = 1 ∧
      curr_depth depth_idx i j * sign > weighted_local_average * sign then
    { st :=
        { fs.st with
          ocp_map := upd3 fs.st.ocp_map k i j 0
          img := fill_pixel fs.st.img k i j }
      freqs := fun k' => if k' = k then fs.freqs k + 1 else fs.freqs k' }
  else fs

/-- The k = 0..5 loop at one cell, with the spec's derived sign instead
of the source's threaded toggle. -/
def filter_cell_by_parity (w i j : ℕ) (fs : FilterState) : FilterState :=
  (List.range 6).foldl (fun fs2 k => filter_view_by_parity w i j k fs2) fs

/-- The background invariant of a rasterizer state: every cell whose
occupancy is 0 holds the background color 255 in its 3 channels. -/
def BG (s : RasterState) : Prop :=
  ∀ v r c ch, ch < 3 → s.ocp_map v r c = 0 → s.img v r c ch = 255

/-- A cell (r, c) the filter loops actually visit: at least w away from
every border of a side-sized grid. -/
def interior_cell (side w r c : ℕ) : Prop :=
  w ≤ r ∧ r < side - w ∧ w ≤ c ∧ c < side - w

/-- How a state may evolve across filter steps: the depth buffers are
untouched, and every (view, cell) either keeps its occupancy and pixel
or is an interior cell that was removed (occupancy 0, channels reset to
255, channels past 2 untouched). -/
def FilterEvol (side w : ℕ) (a b : RasterState) : Prop :=
  b.max_depth = a.max_depth ∧ b.min_depth = a.min_depth ∧
  ∀ v r c,
    (b.ocp_map v r c = a.ocp_map v r c ∧ ∀ ch, b.img v r c ch = a.img v r c ch) ∨
    (interior_cell side w r c ∧ b.ocp_map v r c = 0 ∧
      (∀ ch, ch < 3 → b.img v r c ch = 255) ∧
      ∀ ch, 3 ≤ ch → b.img v r c ch = a.img v r c ch)

/-- The output of the concrete single-point scenario: one point at
(2, 3, 1) colored (10, 20, 30), precision 4, filtering disabled. -/
def c1_out : Option Output :=
  orthographic_projection [![2, 3, 1]] [![10, 20, 30]] 4 0

section Helpers

lemma upd3_lookup {α : Type} (f : ℕ → ℕ → ℕ → α) (a b c : ℕ) (v : α)
    (x y z : ℕ) :
    upd3 f a b c v x y z = if x = a ∧ y = b ∧ z = c then v else f x y z := rfl

lemma upd3_self {α : Type} (f : ℕ → ℕ → ℕ → α) (a b c : ℕ) (v : α) :
    upd3 f a b c v a b c = v := by simp [upd3]

lemma upd3_other {α : Type} (f : ℕ → ℕ → ℕ → α) (a b c : ℕ) (v : α)
    (x y z : ℕ) (h : ¬(x = a ∧ y = b ∧ z = c)) :
    upd3 f a b c v x y z = f x y z := by simp [upd3, h]

lemma write_pixel_other (img : ℕ → ℕ → ℕ → ℕ → ℕ) (v r c : ℕ)
    (col : Fin 3 → ℕ) (v' r' c' ch : ℕ) (h : ¬(v' = v ∧ r' = r ∧ c' = c)) :
    write_pixel img v r c col v' r' c' ch = img v' r' c' ch := by
  unfold write_pixel
  rw [dif_neg]
  intro hc
  exact h ⟨hc.1, hc.2.1, hc.2.2.1⟩

lemma fill_pixel_self (img : ℕ → ℕ → ℕ → ℕ → ℕ) (v r c ch : ℕ)
    (hch : ch < 3) : fill_pixel img v r c v r c ch = 255 := by
  simp [fill_pixel, hch]

lemma fill_pixel_other (img : ℕ → ℕ → ℕ → ℕ → ℕ) (v r c : ℕ)
    (v' r' c' ch : ℕ) (h : ¬(v' = v ∧ r' = r ∧ c' = c)) :
    fill_pixel img v r c v' r' c' ch = img v' r' c' ch := by
  unfold fill_pixel
  rw [if_neg]
  intro hc
  exact h ⟨hc.1, hc.2.1, hc.2.2.1⟩

lemma fill_pixel_high (img : ℕ → ℕ → ℕ → ℕ → ℕ) (v r c : ℕ)
    (v' r' c' ch : ℕ) (h : 3 ≤ ch) :
    fill_pixel img v r c v' r' c' ch = img v' r' c' ch := by
  unfold fill_pixel
  rw [if_neg]
  intro hc
  omega

/-- A foldl preserves any predicate its step preserves. -/
lemma foldl_inv {α β : Type _} {P : α → Prop} (f : α → β → α) :
    ∀ (l : List β) (s : α), P s → (∀ a b, P a → P (f a b)) → P (l.foldl f s)
  | [], _, h, _ => h
  | b :: l, s, h, hstep => foldl_inv f l (f s b) (hstep s b h) hstep

/-- A foldl relates its input to its output by any reflexive transitive
relation every step of the list respects. -/
lemma foldl_rel {α β : Type _} (R : α → α → Prop)
    (htrans : ∀ a b c, R a b → R b c → R a c) (hrefl : ∀ a, R a a)
    (f : α → β → α) :
    ∀ (l : List β) (s : α), (∀ a b, b ∈ l → R a (f a b)) → R s (l.foldl f s)
  | [], s, _ => hrefl s
  | b :: l, s, hstep =>
    htrans _ _ _ (hstep s b (List.mem_cons_self b l))
      (foldl_rel R htrans hrefl f l (f s b)
        (fun a b' hb' => hstep a b' (List.mem_cons_of_mem b hb')))

/-- The floor in floor_as_u64 is the mathematical floor. -/
lemma floor_as_u64_eq_floor (x : ℚ) :
    x.num.fdiv (x.den : ℤ) = ⌊x⌋ := by
  rw [Int.fdiv_eq_ediv _ (by positivity)]
  exact Rat.floor_def.symm

/-- A coordinate below a positive bound quantizes below that bound. -/
lemma floor_as_u64_lt (x : ℚ) (n : ℕ) (hx : x < (n : ℚ)) :
    floor_as_u64 x < n ∨ n = 0 := by
  rcases Nat.eq_zero_or_pos n with h0 | hn
  · exact Or.inr h0
  left
  have h1 : ⌊x⌋ < (n : ℤ) := Int.floor_lt.mpr (by exact_mod_cast hx)
  unfold floor_as_u64
  rw [floor_as_u64_eq_floor]
  dsimp only
  split <;> omega

/-- A negative coordinate quantizes to 0 (the saturating as-cast). -/
lemma floor_as_u64_neg (x : ℚ) (hx : x < 0) : floor_as_u64 x = 0 := by
  have h1 : ⌊x⌋ < (0 : ℤ) := Int.floor_lt.mpr (by exact_mod_cast hx)
  unfold floor_as_u64
  rw [floor_as_u64_eq_floor]
  dsimp only
  split <;> omega

end Helpers

section BGLemmas

/-- A depth-buffer write of the rasterizer (colors into one pixel of one
view, occupancy 1 at the same cell, any depth buffers) preserves the
background invariant. -/
lemma bg_store {s : RasterState} (h : BG s) {V k1 k2 : ℕ} {col : Fin 3 → ℕ}
    {md nd : ℕ → ℕ → ℕ → ℚ} :
    BG { img := write_pixel s.img V k1 k2 col
         ocp_map := upd3 s.ocp_map V k1 k2 1
         min_depth := nd, max_depth := md } := by
  intro v r c ch hch h0
  dsimp only at h0 ⊢
  by_cases hc : v = V ∧ r = k1 ∧ c = k2
  · obtain ⟨rfl, rfl, rfl⟩ := hc
    rw [upd3_self] at h0
    exact absurd h0 one_ne_zero
  · rw [upd3_other _ _ _ _ _ _ _ _ hc] at h0
    rw [write_pixel_other _ _ _ _ _ _ _ _ _ hc]
    exact h v r c ch hch h0

lemma bg_raster_axis (pt : Row) (col_f : Fin 3 → ℕ) (j : Fin 3)
    (s : RasterState) (h : BG s) : BG (raster_axis pt col_f j s) := by
  unfold raster_axis
  dsimp only
  split_ifs with h1 h2 h3 <;>
    first
      | exact bg_store (bg_store h)
      | exact bg_store h
      | exact h

lemma bg_raster_step (B : ℚ) (s : RasterState) (pc : Row × Row) (h : BG s) :
    BG (raster_step B s pc) := by
  unfold raster_step raster_point
  split
  · exact h
  · exact bg_raster_axis _ _ _ _ (bg_raster_axis _ _ _ _ (bg_raster_axis _ _ _ _ h))

lemma bg_rasterize (points colors : List Row) (precision : ℕ) :
    BG (rasterize points colors precision) := by
  unfold rasterize
  refine foldl_inv _ _ _ ?_ ?_
  · intro v r c ch hch _
    rfl
  · intro a b ha
    exact bg_raster_step _ a b ha

/-- A filter removal (occupancy cleared, pixel reset to background)
preserves the background invariant. -/
lemma bg_removal {s : RasterState} (h : BG s) (k i j : ℕ) :
    BG { s with ocp_map := upd3 s.ocp_map k i j 0
                img := fill_pixel s.img k i j } := by
  intro v r c ch hch h0
  dsimp only at h0 ⊢
  by_cases hc : v = k ∧ r = i ∧ c = j
  · obtain ⟨rfl, rfl, rfl⟩ := hc
    exact fill_pixel_self _ _ _ _ _ hch
  · rw [upd3_other _ _ _ _ _ _ _ _ hc] at h0
    rw [fill_pixel_other _ _ _ _ _ _ _ _ hc]
    exact h v r c ch hch h0

lemma bg_filter_view (fs : FilterState) (w i j k : ℕ) (bias : ℚ)
    (h : BG fs.st) : BG (filter_view w i j k bias fs).st := by
  simp only [filter_view]
  split_ifs <;> first | exact h | exact bg_removal h k i j

lemma bg_filter_cell (fs : FilterState) (w i j : ℕ) (h : BG fs.st) :
    BG (filter_cell w i j fs).st := by
  unfold filter_cell
  exact foldl_inv (P := fun p : FilterState × ℚ => BG p.1.st)
    _ _ (fs, 1) h (fun a b ha => bg_filter_view _ _ _ _ _ _ ha)

lemma bg_filter_pass (side w : ℕ) (fs : FilterState) (h : BG fs.st) :
    BG (filter_pass side w fs).st := by
  unfold filter_pass
  refine foldl_inv (P := fun q : FilterState => BG q.st) _ _ _ h ?_
  intro a i ha
  exact foldl_inv (P := fun q : FilterState => BG q.st) _ _ _ ha
    (fun a' jj ha' => bg_filter_cell _ _ _ _ ha')

end BGLemmas

/-- C2: the background invariant holds after initialization, is
preserved by every rasterization write and every filter removal, and
therefore holds of both returned buffers: every (view, cell) whose
occupancy is 0 shows the background color 255 in its 3 channels. -/
theorem background_invariant (points colors : List Row)
    (precision filtering : ℕ) (o : Output)
    (h : orthographic_projection points colors precision filtering = some o) :
    BG (init_state precision) ∧
    (∀ (s : RasterState) (pt : Row) (col_f : Fin 3 → ℕ) (j : Fin 3),
      BG s → BG (raster_axis pt col_f j s)) ∧
    (∀ (fs : FilterState) (w i j k : ℕ) (bias : ℚ),
      BG fs.st → BG (filter_view w i j k bias fs).st) ∧
    ∀ v r c ch, ch < 3 → o.ocp_map v r c = 0 → o.img v r c ch = 255 := by
  refine ⟨fun v r c ch hch _ => rfl,
    fun s pt col_f j hs => bg_raster_axis pt col_f j s hs,
    fun fs w i j k bias hfs => bg_filter_view fs w i j k bias hfs, ?_⟩
  have hbg : BG (rasterize points colors precision) :=
    bg_rasterize points colors precision
  simp only [orthographic_projection] at h
  split_ifs at h with h1 h2 h3 h4 <;>
    (rw [Option.some.injEq] at h
     subst h
     first
       | exact hbg
       | exact bg_filter_pass _ _ _ hbg)

/-- C2 witness: the background invariant of the returned buffers,
instantiated at the single-point scenario and the cell (0, 0, 0). -/
theorem background_invariant_witness :
    (Output.mk (rasterize [![2, 3, 1]] [![10, 20, 30]] 4).img
        (rasterize [![2, 3, 1]] [![10, 20, 30]] 4).ocp_map none).img 0 0 0 0 =
      255 :=
  (background_invariant [![2, 3, 1]] [![10, 20, 30]] 4 0 _ rfl).2.2.2 0 0 0 0
    (by decide) (by decide)

/-- C3: a point with any raw coordinate at or above 2^precision (the
check is on the raw f64 coordinates, once per point) is skipped for all
three axes: the per-point update is the identity on every buffer, and
removing such a row from anywhere in the input leaves the whole
rasterization unchanged. -/
theorem out_of_bounds_point_skipped (precision : ℕ) (pt col : Row)
    (s : RasterState) (l1 l2 : List (Row × Row))
    (h : pt 0 ≥ ((2 ^ precision : ℕ) : ℚ) ∨ pt 1 ≥ ((2 ^ precision : ℕ) : ℚ) ∨
      pt 2 ≥ ((2 ^ precision : ℕ) : ℚ)) :
    raster_step ((2 ^ precision : ℕ) : ℚ) s (pt, col) = s ∧
    (l1 ++ (pt, col) :: l2).foldl (raster_step ((2 ^ precision : ℕ) : ℚ))
        (init_state precision) =
      (l1 ++ l2).foldl (raster_step ((2 ^ precision : ℕ) : ℚ))
        (init_state precision) := by
  have hstep : ∀ t : RasterState,
      raster_step ((2 ^ precision : ℕ) : ℚ) t (pt, col) = t := by
    intro t
    unfold raster_step raster_point
    exact if_pos h
  refine ⟨hstep s, ?_⟩
  rw [List.foldl_append, List.foldl_cons, hstep, List.foldl_append]

/-- C3 witness: at precision 4, the point (16, 0, 0) sits exactly on the
bound and is dropped. -/
theorem out_of_bounds_point_skipped_witness :
    raster_step ((2 ^ 4 : ℕ) : ℚ) (init_state 4) (![16, 0, 0], ![0, 0, 0]) =
      init_state 4 :=
  (out_of_bounds_point_skipped 4 ![16, 0, 0] ![0, 0, 0] (init_state 4) [] []
    (Or.inl (by decide))).1

/-- C6: with filtering = 0 the function returns exactly the rasterizer's
image and occupancy buffers and prints no diagnostic (diag = none). -/
theorem no_filter_pass_through (points colors : List Row) (precision : ℕ)
    (hp : points ≠ []) (hc : colors ≠ [])
    (hlen : points.length ≤ colors.length) :
    orthographic_projection points colors precision 0 =
      some ⟨(rasterize points colors precision).img,
        (rasterize points colors precision).ocp_map, none⟩ := by
  simp only [orthographic_projection]
  rw [if_neg (not_or.mpr ⟨hp, hc⟩), if_neg (not_lt.mpr hlen), if_pos trivial]

/-- C6 witness: the pass-through at a concrete input. -/
theorem no_filter_pass_through_witness :
    orthographic_projection [![0, 0, 0]] [![0, 0, 0]] 2 0 =
      some ⟨(rasterize [![0, 0, 0]] [![0, 0, 0]] 2).img,
        (rasterize [![0, 0, 0]] [![0, 0, 0]] 2).ocp_map, none⟩ :=
  no_filter_pass_through [![0, 0, 0]] [![0, 0, 0]] 2
    (List.cons_ne_nil _ _) (List.cons_ne_nil _ _) (by decide)

/-- C9: for a point passing the bounds check (all raw coordinates below
2^precision; there is no lower bound check), both quantized in-plane
indices are below the grid side 2^precision, so every buffer access of
its rasterization is in bounds; a negative coordinate saturates to grid
index 0 under the floor-then-u64 cast, and such a point is processed
(not skipped): its per-point update is the full three-axis update. -/
theorem quantized_indices_in_bounds (precision : ℕ) (pt col : Row)
    (s : RasterState) (j : Fin 3)
    (h : ∀ c : Fin 3, pt c < ((2 ^ precision : ℕ) : ℚ)) :
    floor_as_u64 (pt (plane j).1) < 2 ^ precision ∧
    floor_as_u64 (pt (plane j).2) < 2 ^ precision ∧
    (∀ c : Fin 3, pt c < 0 → floor_as_u64 (pt c) = 0) ∧
    raster_step ((2 ^ precision : ℕ) : ℚ) s (pt, col) =
      raster_axis pt (quantize_row col) 2
        (raster_axis pt (quantize_row col) 1
          (raster_axis pt (quantize_row col) 0 s)) := by
  have hpos : 0 < 2 ^ precision := pow_pos (by norm_num) precision
  have hb : ∀ c : Fin 3, floor_as_u64 (pt c) < 2 ^ precision := by
    intro c
    rcases floor_as_u64_lt (pt c) (2 ^ precision) (h c) with h' | h'
    · exact h'
    · omega
  refine ⟨hb _, hb _, fun c hc => floor_as_u64_neg _ hc, ?_⟩
  unfold raster_step raster_point
  rw [if_neg]
  push_neg
  exact ⟨h 0, h 1, h 2⟩

/-- C9 witness: at precision 4, the point (2, -1, 3) passes the bounds
check and its in-plane indices for axis 0 are in bounds (the negative
coordinate lands on index 0). -/
theorem quantized_indices_in_bounds_witness :
    floor_as_u64 ((![2, -1, 3] : Row) (plane 0).1) < 2 ^ 4 ∧
    floor_as_u64 ((![2, -1, 3] : Row) 1) = 0 :=
  ⟨(quantized_indices_in_bounds 4 ![2, -1, 3] ![0, 0, 0] (init_state 4) 0
      (by decide)).1,
    (quantized_indices_in_bounds 4 ![2, -1, 3] ![0, 0, 0] (init_state 4) 0
      (by decide)).2.2.1 1 (by decide)⟩

section EvolLemmas

lemma evol_refl (side w : ℕ) (a : RasterState) : FilterEvol side w a a :=
  ⟨rfl, rfl, fun _ _ _ => Or.inl ⟨rfl, fun _ => rfl⟩⟩

lemma evol_trans (side w : ℕ) (a b c : RasterState)
    (hab : FilterEvol side w a b) (hbc : FilterEvol side w b c) :
    FilterEvol side w a c := by
  obtain ⟨hbmax, hbmin, hb⟩ := hab
  obtain ⟨hcmax, hcmin, hc⟩ := hbc
  refine ⟨hcmax.trans hbmax, hcmin.trans hbmin, fun v r col => ?_⟩
  rcases hc v r col with ⟨hco, hci⟩ | ⟨hint, hco, hcl, hch⟩
  · rcases hb v r col with ⟨hbo, hbi⟩ | ⟨hint, hbo, hbl, hbh⟩
    · exact Or.inl ⟨hco.trans hbo, fun ch => (hci ch).trans (hbi ch)⟩
    · exact Or.inr ⟨hint, hco.trans hbo, fun ch h3 => (hci ch).trans (hbl ch h3),
        fun ch h3 => (hci ch).trans (hbh ch h3)⟩
  · refine Or.inr ⟨hint, hco, hcl, fun ch h3 => (hch ch h3).trans ?_⟩
    rcases hb v r col with ⟨_, hbi⟩ | ⟨_, _, _, hbh⟩
    · exact hbi ch
    · exact hbh ch h3

/-- One innermost filter iteration either leaves the state alone or
removes its own interior cell; it never writes the depth buffers. -/
lemma filter_view_evol (side w i j k : ℕ) (bias : ℚ) (fs : FilterState)
    (hin : interior_cell side w i j) :
    FilterEvol side w fs.st (filter_view w i j k bias fs).st := by
  simp only [filter_view]
  split_ifs with h1 h2
  · refine ⟨rfl, rfl, fun v r c => ?_⟩
    by_cases hc : v = k ∧ r = i ∧ c = j
    · obtain ⟨rfl, rfl, rfl⟩ := hc
      exact Or.inr ⟨hin, upd3_self _ _ _ _ _,
        fun ch hch => fill_pixel_self _ _ _ _ _ hch,
        fun ch h3 => fill_pixel_high _ _ _ _ _ _ _ _ h3⟩
    · exact Or.inl ⟨upd3_other _ _ _ _ _ _ _ _ hc,
        fun ch => fill_pixel_other _ _ _ _ _ _ _ _ hc⟩
  · exact evol_refl _ _ _
  · refine ⟨rfl, rfl, fun v r c => ?_⟩
    by_cases hc : v = k ∧ r = i ∧ c = j
    · obtain ⟨rfl, rfl, rfl⟩ := hc
      exact Or.inr ⟨hin, upd3_self _ _ _ _ _,
        fun ch hch => fill_pixel_self _ _ _ _ _ hch,
        fun ch h3 => fill_pixel_high _ _ _ _ _ _ _ _ h3⟩
    · exact Or.inl ⟨upd3_other _ _ _ _ _ _ _ _ hc,
        fun ch => fill_pixel_other _ _ _ _ _ _ _ _ hc⟩
  · exact evol_refl _ _ _

lemma filter_cell_evol (side w i j : ℕ) (fs : FilterState)
    (hin : interior_cell side w i j) :
    FilterEvol side w fs.st (filter_cell w i j fs).st := by
  unfold filter_cell
  exact foldl_rel (fun p q : FilterState × ℚ => FilterEvol side w p.1.st q.1.st)
    (fun _ _ _ => evol_trans side w _ _ _)
    (fun _ => evol_refl _ _ _)
    _ (List.range 6) (fs, 1)
    (fun a b _ => filter_view_evol side w i j b a.2 a.1 hin)

lemma filter_pass_evol (side w : ℕ) (fs : FilterState) :
    FilterEvol side w fs.st (filter_pass side w fs).st := by
  unfold filter_pass
  refine foldl_rel (fun p q : FilterState => FilterEvol side w p.st q.st)
    (fun _ _ _ => evol_trans side w _ _ _) (fun _ => evol_refl _ _ _)
    _ _ _ ?_
  intro a i hi
  refine foldl_rel (fun p q : FilterState => FilterEvol side w p.st q.st)
    (fun _ _ _ => evol_trans side w _ _ _) (fun _ => evol_refl _ _ _)
    _ _ _ ?_
  intro a' jj hj
  rw [List.mem_range'_1] at hi hj
  exact filter_cell_evol side w i jj a' ⟨hi.1, by omega, hj.1, by omega⟩

end EvolLemmas

/-- C5: the filter stage never writes the depth buffers; every
(view, cell) either keeps its occupancy and pixel from rasterization or
is removed (occupancy 0, channels reset to 255), so occupancy never goes
from 0 to 1; and every cell in the border region of width w (row or
column below w or at least side - w) is left entirely unchanged. -/
theorem filter_locality (side w : ℕ) (fs : FilterState) (v r c : ℕ) :
    (filter_pass side w fs).st.max_depth = fs.st.max_depth ∧
    (filter_pass side w fs).st.min_depth = fs.st.min_depth ∧
    (((filter_pass side w fs).st.ocp_map v r c = fs.st.ocp_map v r c ∧
        ∀ ch, (filter_pass side w fs).st.img v r c ch = fs.st.img v r c ch) ∨
      ((filter_pass side w fs).st.ocp_map v r c = 0 ∧
        ∀ ch, ch < 3 → (filter_pass side w fs).st.img v r c ch = 255)) ∧
    (fs.st.ocp_map v r c = 0 → (filter_pass side w fs).st.ocp_map v r c = 0) ∧
    ((r < w ∨ side - w ≤ r ∨ c < w ∨ side - w ≤ c) →
      (filter_pass side w fs).st.ocp_map v r c = fs.st.ocp_map v r c ∧
      ∀ ch, (filter_pass side w fs).st.img v r c ch = fs.st.img v r c ch) := by
  obtain ⟨hmax, hmin, hcell⟩ := filter_pass_evol side w fs
  refine ⟨hmax, hmin, ?_, ?_, ?_⟩
  · rcases hcell v r c with ⟨ho, hi⟩ | ⟨_, ho, hl, _⟩
    · exact Or.inl ⟨ho, hi⟩
    · exact Or.inr ⟨ho, hl⟩
  · intro h0
    rcases hcell v r c with ⟨ho, _⟩ | ⟨_, ho, _, _⟩
    · exact ho.trans h0
    · exact ho
  · intro hb
    rcases hcell v r c with ⟨ho, hi⟩ | ⟨hint, _, _, _⟩
    · exact ⟨ho, hi⟩
    · exfalso
      obtain ⟨hr1, hr2, hc1, hc2⟩ := hint
      omega

/-- C5 witness: at side 4, w 1, the border cell (0, 0) of view 0 is
untouched by the filter. -/
theorem filter_locality_witness :
    (filter_pass 4 1 ⟨init_state 2, fun _ => 0⟩).st.ocp_map 0 0 0 =
      (⟨init_state 2, fun _ => 0⟩ : FilterState).st.ocp_map 0 0 0 :=
  ((filter_locality 4 1 ⟨init_state 2, fun _ => 0⟩ 0 0 0).2.2.2.2
    (Or.inl (by decide))).1

section WindowLemmas

lemma list_sum_zero_of_nonneg :
    ∀ (l : List ℚ), (∀ x ∈ l, 0 ≤ x) → l.sum = 0 → ∀ x ∈ l, x = 0
  | [], _, _, x, hx => absurd hx (List.not_mem_nil x)
  | a :: t, hpos, hsum, x, hx => by
      rw [List.sum_cons] at hsum
      have ha : 0 ≤ a := hpos a (List.mem_cons_self a t)
      have ht : 0 ≤ t.sum :=
        List.sum_nonneg fun y hy => hpos y (List.mem_cons_of_mem a hy)
      have ha0 : a = 0 := by linarith
      have hts : t.sum = 0 := by linarith
      rcases List.mem_cons.mp hx with rfl | hx'
      · exact ha0
      · exact list_sum_zero_of_nonneg t
          (fun y hy => hpos y (List.mem_cons_of_mem a hy)) hts x hx'

/-- If a window of nonnegative values sums to 0, every entry of the
window is 0. -/
lemma win_sum_entries_zero {f : ℕ → ℕ → ℚ} {i j w : ℕ}
    (hpos : ∀ a b, a < 2 * w + 1 → b < 2 * w + 1 →
      0 ≤ f (i - w + a) (j - w + b))
    (hsum : win_sum f i j w = 0) (a b : ℕ) (ha : a < 2 * w + 1)
    (hb : b < 2 * w + 1) : f (i - w + a) (j - w + b) = 0 := by
  unfold win_sum at hsum
  have houter : ∀ x ∈ (List.range (2 * w + 1)).map
      (fun a => ((List.range (2 * w + 1)).map
        fun b => f (i - w + a) (j - w + b)).sum), 0 ≤ x := by
    intro x hx
    obtain ⟨a', ha', rfl⟩ := List.mem_map.mp hx
    refine List.sum_nonneg ?_
    intro y hy
    obtain ⟨b', hb', rfl⟩ := List.mem_map.mp hy
    exact hpos a' b' (List.mem_range.mp ha') (List.mem_range.mp hb')
  have hinner := list_sum_zero_of_nonneg _ houter hsum _
    (List.mem_map_of_mem _ (List.mem_range.mpr ha))
  refine list_sum_zero_of_nonneg _ ?_ hinner _
    (List.mem_map_of_mem _ (List.mem_range.mpr hb))
  intro y hy
  obtain ⟨b', hb', rfl⟩ := List.mem_map.mp hy
  exact hpos a b' ha (List.mem_range.mp hb')

end WindowLemmas

/-- C7: at any cell whose occupancy window sums to 0 (with the window
holding the 0/1 occupancy values the pipeline produces, hence
nonnegative), the filter step removes nothing: the state is returned
unchanged.  In the source the division 0.0/0.0 produces NaN, against
which the removal comparison is false; in either semantics the center
occupancy is itself 0, so the removal condition already fails. -/
theorem zero_occupancy_window_no_removal (w i j k : ℕ) (bias : ℚ)
    (fs : FilterState) (hi : w ≤ i) (hj : w ≤ j)
    (hnn : ∀ a b, a < 2 * w + 1 → b < 2 * w + 1 →
      0 ≤ fs.st.ocp_map k (i - w + a) (j - w + b))
    (hsum : win_sum (fun r c => fs.st.ocp_map k r c) i j w = 0) :
    filter_view w i j k bias fs = fs := by
  have hcenter : fs.st.ocp_map k i j = 0 := by
    have h := win_sum_entries_zero hnn hsum w w (by omega) (by omega)
    rwa [show i - w + w = i by omega, show j - w + w = j by omega] at h
  simp only [filter_view]
  rw [if_neg]
  rintro ⟨h1, _⟩
  rw [hcenter] at h1
  exact zero_ne_one h1

/-- C7 witness: a window of the all-unoccupied initial state. -/
theorem zero_occupancy_window_no_removal_witness :
    filter_view 1 1 1 0 1 ⟨init_state 4, fun _ => 0⟩ =
      ⟨init_state 4, fun _ => 0⟩ :=
  zero_occupancy_window_no_removal 1 1 1 0 1 ⟨init_state 4, fun _ => 0⟩
    (by decide) (by decide) (fun a b _ _ => le_refl 0)
    (by simp [win_sum, init_state])

section ParityLemmas

lemma filter_view_parity_even (w i j k : ℕ) (hk : k % 2 = 0)
    (fs : FilterState) :
    filter_view w i j k 1 fs = filter_view_by_parity w i j k fs := by
  simp [filter_view, filter_view_by_parity, hk]

lemma filter_view_parity_odd (w i j k : ℕ) (hk : k % 2 = 1)
    (fs : FilterState) :
    filter_view w i j k (-1) fs = filter_view_by_parity w i j k fs := by
  have hne : ((-1 : ℚ) = 1) = False := by norm_num
  simp [filter_view, filter_view_by_parity, hk, hne]

end ParityLemmas

/-- C8: the source's mutable bias (1.0 at each cell, multiplied by -1
after each of the 6 views taken in order) is equivalent to deriving the
sign from the parity of the view index: the whole per-cell loop equals
the spec's formulation in which every even (low-side) view is filtered
against the near buffer with margin +20 and every odd (high-side) view
against the far buffer with margin -20. -/
theorem bias_toggle_matches_parity (w i j : ℕ) (fs : FilterState) :
    filter_cell w i j fs = filter_cell_by_parity w i j fs := by
  have h6 : List.range 6 = [0, 1, 2, 3, 4, 5] := rfl
  unfold filter_cell filter_cell_by_parity
  rw [h6]
  simp only [List.foldl_cons, List.foldl_nil]
  norm_num
  rw [filter_view_parity_even w i j 0 rfl,
    filter_view_parity_odd w i j 1 rfl,
    filter_view_parity_even w i j 2 rfl,
    filter_view_parity_odd w i j 3 rfl,
    filter_view_parity_even w i j 4 rfl,
    filter_view_parity_odd w i j 5 rfl]

set_option maxHeartbeats 2000000 in
/-- C1: for the single point (2, 3, 1) with color (10, 20, 30) at
precision 4 and filtering 0, views 0 and 1 carry the color with
occupancy 1 at cell (3, 1), views 2 and 3 at (2, 1), views 4 and 5 at
(2, 3), and every other cell of every view has occupancy 0 and the
background color (255, 255, 255). -/
theorem single_point_scenario :
    ((c1_out.map fun o => o.ocp_map 0 3 1) = some 1 ∧
      (c1_out.map fun o => o.ocp_map 1 3 1) = some 1 ∧
      (c1_out.map fun o => o.ocp_map 2 2 1) = some 1 ∧
      (c1_out.map fun o => o.ocp_map 3 2 1) = some 1 ∧
      (c1_out.map fun o => o.ocp_map 4 2 3) = some 1 ∧
      (c1_out.map fun o => o.ocp_map 5 2 3) = some 1) ∧
    ((∀ ch : Fin 3, (c1_out.map fun o => o.img 0 3 1 ch) = some (![10, 20, 30] ch)) ∧
      (∀ ch : Fin 3, (c1_out.map fun o => o.img 1 3 1 ch) = some (![10, 20, 30] ch)) ∧
      (∀ ch : Fin 3, (c1_out.map fun o => o.img 2 2 1 ch) = some (![10, 20, 30] ch)) ∧
      (∀ ch : Fin 3, (c1_out.map fun o => o.img 3 2 1 ch) = some (![10, 20, 30] ch)) ∧
      (∀ ch : Fin 3, (c1_out.map fun o => o.img 4 2 3 ch) = some (![10, 20, 30] ch)) ∧
      (∀ ch : Fin 3, (c1_out.map fun o => o.img 5 2 3 ch) = some (![10, 20, 30] ch))) ∧
    ∀ v : Fin 6, ∀ r : Fin 16, ∀ c : Fin 16,
      (((v : ℕ) ≤ 1 ∧ (r : ℕ) = 3 ∧ (c : ℕ) = 1) ∨
        (2 ≤ (v : ℕ) ∧ (v : ℕ) ≤ 3 ∧ (r : ℕ) = 2 ∧ (c : ℕ) = 1) ∨
        (4 ≤ (v : ℕ) ∧ (r : ℕ) = 2 ∧ (c : ℕ) = 3)) ∨
      ((c1_out.map fun o => o.ocp_map v r c) = some 0 ∧
        ∀ ch : Fin 3, (c1_out.map fun o => o.img v r c ch) = some 255) := by
  refine ⟨⟨?_, ?_, ?_, ?_, ?_, ?_⟩, ⟨?_, ?_, ?_, ?_, ?_, ?_⟩, ?_⟩ <;> decide

/-- C10: with filtering nonzero and larger than the grid side
2^precision, the usize loop bound max_bound_u - w_u underflows and the
call panics instead of returning (modeled as none), for any otherwise
well-formed input; no validation of filtering against precision exists. -/
theorem filter_width_underflow_none (points colors : List Row)
    (precision filtering : ℕ) (hp : points ≠ []) (hc : colors ≠ [])
    (hlen : points.length ≤ colors.length) (hf : filtering ≠ 0)
    (hw : 2 ^ precision < filtering) :
    orthographic_projection points colors precision filtering = none := by
  simp only [orthographic_projection]
  rw [if_neg (not_or.mpr ⟨hp, hc⟩), if_neg (not_lt.mpr hlen), if_neg hf,
    if_pos hw]

section DepthLemmas

lemma upd3_le {f : ℕ → ℕ → ℕ → ℚ} {a b c : ℕ} {v : ℚ} (h : v ≤ f a b c)
    (x y z : ℕ) : upd3 f a b c v x y z ≤ f x y z := by
  unfold upd3
  split
  · rename_i hc
    obtain ⟨rfl, rfl, rfl⟩ := hc
    exact h
  · exact le_refl _

lemma upd3_ge {f : ℕ → ℕ → ℕ → ℚ} {a b c : ℕ} {v : ℚ} (h : f a b c ≤ v)
    (x y z : ℕ) : f x y z ≤ upd3 f a b c v x y z := by
  unfold upd3
  split
  · rename_i hc
    obtain ⟨rfl, rfl, rfl⟩ := hc
    exact h
  · exact le_refl _

/-- One per-axis update only lowers max_depth (the near buffer) and only
raises min_depth (the far buffer), at every cell. -/
lemma raster_axis_depth (pt : Row) (col_f : Fin 3 → ℕ) (ja : Fin 3)
    (s : RasterState) (j k1 k2 : ℕ) :
    (raster_axis pt col_f ja s).max_depth j k1 k2 ≤ s.max_depth j k1 k2 ∧
    s.min_depth j k1 k2 ≤ (raster_axis pt col_f ja s).min_depth j k1 k2 := by
  unfold raster_axis
  dsimp only
  split_ifs with h1 h2 h3
  · exact ⟨upd3_le h1 _ _ _, upd3_ge h2 _ _ _⟩
  · exact ⟨upd3_le h1 _ _ _, le_refl _⟩
  · exact ⟨le_refl _, upd3_ge h3 _ _ _⟩
  · exact ⟨le_refl _, le_refl _⟩

lemma raster_step_depth (B : ℚ) (s : RasterState) (pc : Row × Row)
    (j k1 k2 : ℕ) :
    (raster_step B s pc).max_depth j k1 k2 ≤ s.max_depth j k1 k2 ∧
    s.min_depth j k1 k2 ≤ (raster_step B s pc).min_depth j k1 k2 := by
  unfold raster_step raster_point
  split
  · exact ⟨le_refl _, le_refl _⟩
  · have d0 := raster_axis_depth pc.1 (quantize_row pc.2) 0 s j k1 k2
    have d1 := raster_axis_depth pc.1 (quantize_row pc.2) 1
      (raster_axis pc.1 (quantize_row pc.2) 0 s) j k1 k2
    have d2 := raster_axis_depth pc.1 (quantize_row pc.2) 2
      (raster_axis pc.1 (quantize_row pc.2) 1
        (raster_axis pc.1 (quantize_row pc.2) 0 s)) j k1 k2
    exact ⟨d2.1.trans (d1.1.trans d0.1), d0.2.trans (d1.2.trans d2.2)⟩

/-- Folding any batch of points only lowers max_depth and raises
min_depth, cellwise. -/
lemma foldl_raster_depth (B : ℚ) (l : List (Row × Row)) (s : RasterState)
    (j k1 k2 : ℕ) :
    (l.foldl (raster_step B) s).max_depth j k1 k2 ≤ s.max_depth j k1 k2 ∧
    s.min_depth j k1 k2 ≤ (l.foldl (raster_step B) s).min_depth j k1 k2 :=
  foldl_rel
    (fun a b => b.max_depth j k1 k2 ≤ a.max_depth j k1 k2 ∧
      a.min_depth j k1 k2 ≤ b.min_depth j k1 k2)
    (fun _ _ _ hab hbc => ⟨hbc.1.trans hab.1, hab.2.trans hbc.2⟩)
    (fun _ => ⟨le_refl _, le_refl _⟩)
    (raster_step B) l s
    (fun a b _ => raster_step_depth B a b j k1 k2)

end DepthLemmas

/-- C4: as points are processed in order, at every fixed axis and cell
the near buffer (source name max_depth) is non-increasing and the far
buffer (source name min_depth) is non-decreasing; starting from the
fresh buffers the near value stays at most 2^precision and the far value
stays at least 0. -/
theorem depth_buffers_monotone (precision : ℕ) (l l2 : List (Row × Row))
    (j k1 k2 : ℕ) :
    ((l ++ l2).foldl (raster_step ((2 ^ precision : ℕ) : ℚ))
          (init_state precision)).max_depth j k1 k2 ≤
      (l.foldl (raster_step ((2 ^ precision : ℕ) : ℚ))
          (init_state precision)).max_depth j k1 k2 ∧
    (l.foldl (raster_step ((2 ^ precision : ℕ) : ℚ))
          (init_state precision)).min_depth j k1 k2 ≤
      ((l ++ l2).foldl (raster_step ((2 ^ precision : ℕ) : ℚ))
          (init_state precision)).min_depth j k1 k2 ∧
    (l.foldl (raster_step ((2 ^ precision : ℕ) : ℚ))
          (init_state precision)).max_depth j k1 k2 ≤ ((2 ^ precision : ℕ) : ℚ) ∧
    0 ≤ (l.foldl (raster_step ((2 ^ precision : ℕ) : ℚ))
          (init_state precision)).min_depth j k1 k2 := by
  rw [List.foldl_append]
  refine ⟨(foldl_raster_depth _ l2 _ j k1 k2).1,
    (foldl_raster_depth _ l2 _ j k1 k2).2, ?_, ?_⟩
  · exact (foldl_raster_depth _ l _ j k1 k2).1
  · exact (foldl_raster_depth _ l _ j k1 k2).2

/-- C10 witness: precision 1 (side 2) with filtering 3 hits the
underflow. -/
theorem filter_width_underflow_none_witness :
    orthographic_projection [![0, 0, 0]] [![0, 0, 0]] 1 3 = none :=
  filter_width_underflow_none [![0, 0, 0]] [![0, 0, 0]] 1 3
    (List.cons_ne_nil _ _) (List.cons_ne_nil _ _) (by decide) (by decide)
    (by decide)

end OrthoProj
